import Mathlib

/-!
A shallow embedding of the OS Process Manager registry
(`src/OS Process Manager/OS Process Manager.cpp`).

The C++ program keeps a `std::map<int, unique_ptr<Process>>` as the canonical
store, raw `Process*` links for the tree (parent pointer, children vector),
and two `std::queue<Process*>` (ready, I/O).  Because process identifiers are
unique and never reused, pointer identity between live processes coincides
with identifier equality, so the embedding stores identifiers everywhere:
the map becomes a function `Int → Option Process`, the parent pointer an
`Option Int`, the children vector and both queues `List Int` (head of the
list = front of the queue).  Each operation returns the new state together
with the line it prints.
-/

/-- One simulated process: identifier, display name, parent link, ordered
children, and a call stack of function names (head = top of stack).  Mirrors
`class Process` in the C++ source. -/
structure Process where
  pid : Int
  name : String
  parent : Option Int
  children : List Int
  callStack : List String
deriving Repr, DecidableEq

/-- The registry state: identifier counter, optional root, canonical store,
and the two FIFO queues.  Mirrors the private fields of `class
ProcessManager` in the C++ source. -/
structure ProcessManager where
  pidCounter : Int
  root : Option Int
  processMap : Int → Option Process
  readyQueue : List Int
  ioQueue : List Int

/-- Point update of the store, modelling `processMap[k] = …`. -/
def mapUpdate (f : Int → Option Process) (k : Int) (p : Process) : Int → Option Process :=
  fun x => if x = k then some p else f x

/-- Point removal from the store, modelling `processMap.erase(k)`. -/
def mapErase (f : Int → Option Process) (k : Int) : Int → Option Process :=
  fun x => if x = k then none else f x

/-- The parent-resolution step of `createProcess`: `if (parentPID != -1 &&
processMap.count(parentPID)) parent = processMap[parentPID]`.  A supplied
identifier that is absent from the store resolves, silently, to no
parent. -/
def resolvedParent (m : ProcessManager) (parentPID : Int) : Option Int :=
  if parentPID != -1 && (m.processMap parentPID).isSome then some parentPID else none

/-- The `parent->addChild(rawPtr)` step of `createProcess`: append `newPid`
to the children vector of the resolved parent, when one was resolved. -/
def parentChildAdd (m : ProcessManager) (parentPID newPid : Int) :
    Int → Option Process :=
  match resolvedParent m parentPID, m.processMap parentPID with
  | some pp, some pproc =>
      mapUpdate m.processMap pp { pproc with children := pproc.children ++ [newPid] }
  | _, _ => m.processMap

/-- The root-designation step of `createProcess`: `if (parent) … else if
(!root) root = rawPtr` — the new process becomes root exactly when no parent
was resolved and no root exists. -/
def newRoot (m : ProcessManager) (parent : Option Int) (newPid : Int) : Option Int :=
  match parent with
  | some _ => m.root
  | none => match m.root with
    | none => some newPid
    | some r => some r

/-- `ProcessManager::createProcess`: resolve the parent (only when
`parentPID != -1` and present in the map), allocate `pidCounter++` as the new
identifier, link as child of the resolved parent, set the root when no parent
was resolved and no root exists, store the process and push it on the tail of
the ready queue. -/
def createProcess (m : ProcessManager) (nm : String) (parentPID : Int) :
    ProcessManager × String :=
  let parent : Option Int := resolvedParent m parentPID
  let newPid : Int := m.pidCounter
  let proc : Process := ⟨newPid, nm, parent, [], []⟩
  (⟨m.pidCounter + 1, newRoot m parent newPid,
    mapUpdate (parentChildAdd m parentPID newPid) newPid proc,
    m.readyQueue ++ [newPid], m.ioQueue⟩,
   "Created process: PID=" ++ toString newPid)

/-- `ProcessManager::callFunction`: push the function name on the call stack
of the process when the identifier is found, otherwise report not found. -/
def callFunction (m : ProcessManager) (pid : Int) (funcName : String) :
    ProcessManager × String :=
  match m.processMap pid with
  | some p =>
      let p' : Process := { p with callStack := funcName :: p.callStack }
      ({ m with processMap := mapUpdate m.processMap pid p' },
       "Process " ++ toString pid ++ " called function: " ++ funcName)
  | none => (m, "Process not found.")

/-- The drain-and-rebuild loop shared by `requestIO` and `completeIO` in the
C++ source: pop every element of the source queue; an element equal to `p`
is pushed on the destination queue (and the `found` flag set), any other
element is pushed on the rebuilt source queue.  Returns (rebuilt source,
destination, found). -/
def transferLoop (p : Int) : List Int → List Int → List Int → Bool →
    List Int × List Int × Bool
  | [], newQ, dest, found => (newQ, dest, found)
  | front :: rest, newQ, dest, found =>
      if front = p then transferLoop p rest newQ (dest ++ [front]) true
      else transferLoop p rest (newQ ++ [front]) dest found

/-- `ProcessManager::requestIO`: look the identifier up first; when found,
drain the ready queue moving the process to the tail of the I/O queue and
rebuilding the ready queue around it. -/
def requestIo (m : ProcessManager) (pid : Int) : ProcessManager × String :=
  match m.processMap pid with
  | some _ =>
      let r := transferLoop pid m.readyQueue [] m.ioQueue false
      let m' : ProcessManager := { m with readyQueue := r.1, ioQueue := r.2.1 }
      if r.2.2 then (m', "Process " ++ toString pid ++ " moved to I/O queue.")
      else (m', "Process not in ready queue.")
  | none => (m, "Process not found.")

/-- `ProcessManager::completeIO`: no map lookup at all — drain the I/O queue
comparing stored identifiers, moving a match to the tail of the ready
queue. -/
def completeIo (m : ProcessManager) (pid : Int) : ProcessManager × String :=
  let r := transferLoop pid m.ioQueue [] m.readyQueue false
  let m' : ProcessManager := { m with ioQueue := r.1, readyQueue := r.2.1 }
  if r.2.2 then
    (m', "Process " ++ toString pid ++ " completed I/O and returned to ready queue.")
  else (m', "Process not found in I/O queue.")

/-- The accumulator loop of `ProcessManager::removeFromQueue`: drain `q`,
pushing every element other than `p` on `temp`, then replace `q` by
`temp`. -/
def removeFromQueueAux (p : Int) : List Int → List Int → List Int
  | temp, [] => temp
  | temp, current :: rest =>
      if current = p then removeFromQueueAux p temp rest
      else removeFromQueueAux p (temp ++ [current]) rest

/-- `ProcessManager::removeFromQueue`. -/
def removeFromQueue (q : List Int) (p : Int) : List Int :=
  removeFromQueueAux p [] q

/-- The `erase(std::remove(…), end)` idiom on the children vector: remove
every element equal to `x`, keeping the order of the rest. -/
def eraseRemove (l : List Int) (x : Int) : List Int :=
  l.filter (fun y => y != x)

/-- The `siblings.erase(std::remove(…))` step of `terminateProcess`: erase
`pid` from the children vector of its parent `p.parent`.  The erase is
guarded here by the parent still being in the store; the C++ source
dereferences the raw parent pointer unconditionally, so when the parent was
itself terminated earlier (the `none` inner branch) the C++ code writes
through a dangling pointer into a freed object (see `danglingParent`
below). -/
def parentChildErase (m : ProcessManager) (p : Process) (pid : Int) :
    Int → Option Process :=
  match p.parent with
  | some parentPid =>
      match m.processMap parentPid with
      | some pproc =>
          mapUpdate m.processMap parentPid
            { pproc with children := eraseRemove pproc.children pid }
      | none => m.processMap
  | none => m.processMap

/-- `ProcessManager::terminateProcess`: when the identifier is found, remove
the process from both queues, erase it from its parent's children vector,
clear the root designation when it is the root, and erase it from the
store. -/
def terminateProcess (m : ProcessManager) (pid : Int) : ProcessManager × String :=
  match m.processMap pid with
  | none => (m, "Process not found.")
  | some p =>
      let ready1 := removeFromQueue m.readyQueue pid
      let io1 := removeFromQueue m.ioQueue pid
      let root1 : Option Int := if m.root = some pid then none else m.root
      (⟨m.pidCounter, root1, mapErase (parentChildErase m p pid) pid, ready1, io1⟩,
       "Process " ++ toString pid ++ " terminated.")

/-- The line printed for one queue element ("PID: …, Name: …").  The queue
only ever holds live identifiers, so the `none` branch is unreachable in
states produced by the operations. -/
def queueLine (pm : Int → Option Process) (pid : Int) : String :=
  match pm pid with
  | some p => "PID: " ++ toString p.pid ++ ", Name: " ++ p.name
  | none => "PID: " ++ toString pid ++ ", Name: ?"

/-- `ProcessManager::displayQueue`: the C++ method receives the queue **by
value** and drains the copy, producing one line per element; the member queue
is untouched. -/
def displayQueue (pm : Int → Option Process) : List Int → List String
  | [] => []
  | pid :: rest => queueLine pm pid :: displayQueue pm rest

/-- `Process::displayHierarchy`, generalised to a list of roots: pre-order
traversal, children indented two further spaces.  `fuel` bounds the recursion
depth; the C++ recursion terminates because the reachable hierarchy is
acyclic. -/
def displayHierarchy (pm : Int → Option Process) :
    Nat → List Int → String → List String
  | 0, _, _ => []
  | _ + 1, [], _ => []
  | fuel + 1, pid :: rest, indent =>
      (match pm pid with
       | none => []
       | some p =>
           (indent ++ "PID: " ++ toString p.pid ++ ", Name: " ++ p.name)
             :: displayHierarchy pm fuel p.children (indent ++ "  "))
      ++ displayHierarchy pm (fuel + 1) rest indent
termination_by fuel l _ => (fuel, l)

/-- The tree section of `ProcessManager::showState`: the hierarchy from the
root, or the fixed "(No processes created yet)" line when no root is
designated. -/
def showStateTree (m : ProcessManager) : List String :=
  match m.root with
  | some r => displayHierarchy m.processMap m.pidCounter.toNat [r] ""
  | none => ["(No processes created yet)"]

/-- `ProcessManager::showState`: ready queue, I/O queue, then the tree.  The
state component of the result is the registry after the display — the queues
are passed to `displayQueue` by value, so nothing is mutated. -/
def showState (m : ProcessManager) : List String × ProcessManager :=
  (["--- Ready Queue ---"] ++ displayQueue m.processMap m.readyQueue
    ++ ["--- I/O Queue ---"] ++ displayQueue m.processMap m.ioQueue
    ++ ["--- Process Tree ---"] ++ showStateTree m
    ++ ["--------------------"], m)

/-- One invocation of a mutating registry operation, with its arguments. -/
inductive Op
  | create (nm : String) (parentPID : Int)
  | call (pid : Int) (funcName : String)
  | reqIo (pid : Int)
  | compIo (pid : Int)
  | term (pid : Int)
deriving Repr, DecidableEq

/-- Apply one operation, discarding the printed line. -/
def applyOp (m : ProcessManager) : Op → ProcessManager
  | .create nm pp => (createProcess m nm pp).1
  | .call pid fn => (callFunction m pid fn).1
  | .reqIo pid => (requestIo m pid).1
  | .compIo pid => (completeIo m pid).1
  | .term pid => (terminateProcess m pid).1

/-- The freshly constructed registry: counter at 1, no root, empty store,
empty queues. -/
def initState : ProcessManager :=
  ⟨1, none, fun _ => none, [], []⟩

/-- The registry state after a sequence of operations from the fresh
registry. -/
def run (ops : List Op) : ProcessManager :=
  ops.foldl applyOp initState

/-- The identifiers handed out while a sequence of operations executes from
state `m`: `createProcess` assigns the current counter, the other operations
assign nothing. -/
def assignedPids (m : ProcessManager) : List Op → List Int
  | [] => []
  | op :: rest =>
      (match op with
       | .create _ _ => [m.pidCounter]
       | _ => []) ++ assignedPids (applyOp m op) rest

/-- `[s, s+1, …, s+k-1]`. -/
def intRange : Int → Nat → List Int
  | _, 0 => []
  | s, k + 1 => s :: intRange (s + 1) k

/-- A live process whose stored parent link refers to an identifier no longer
in the store.  In the C++ source this is exactly the situation in which
`terminateProcess` dereferences a dangling `Process*` (the parent object was
freed when it was erased from `processMap`). -/
def danglingParent (m : ProcessManager) (pid : Int) : Prop :=
  ∃ p, m.processMap pid = some p ∧ ∃ q, p.parent = some q ∧ m.processMap q = none

/-! ### Basic lemmas about the store and the queue loops -/

@[simp] theorem mapUpdate_same (f : Int → Option Process) (k : Int) (p : Process) :
    mapUpdate f k p k = some p := by
  simp [mapUpdate]

@[simp] theorem mapUpdate_other (f : Int → Option Process) (k : Int) (p : Process)
    (x : Int) (h : x ≠ k) : mapUpdate f k p x = f x := by
  simp [mapUpdate, h]

@[simp] theorem mapErase_same (f : Int → Option Process) (k : Int) :
    mapErase f k k = none := by
  simp [mapErase]

@[simp] theorem mapErase_other (f : Int → Option Process) (k x : Int) (h : x ≠ k) :
    mapErase f k x = f x := by
  simp [mapErase, h]

theorem transferLoop_fst (p : Int) (src newQ dest : List Int) (found : Bool) :
    (transferLoop p src newQ dest found).1 = newQ ++ src.filter (fun x => x != p) := by
  induction src generalizing newQ dest found with
  | nil => simp [transferLoop]
  | cons a rest ih =>
    by_cases h : a = p
    · subst h
      simp [transferLoop, ih]
    · simp [transferLoop, h, ih]

theorem transferLoop_dest (p : Int) (src newQ dest : List Int) (found : Bool) :
    (transferLoop p src newQ dest found).2.1 = dest ++ src.filter (fun x => x == p) := by
  induction src generalizing newQ dest found with
  | nil => simp [transferLoop]
  | cons a rest ih =>
    by_cases h : a = p
    · subst h
      simp [transferLoop, ih]
    · simp [transferLoop, h, ih]

theorem transferLoop_found (p : Int) (src newQ dest : List Int) (found : Bool) :
    (transferLoop p src newQ dest found).2.2 = (found || decide (p ∈ src)) := by
  induction src generalizing newQ dest found with
  | nil => simp [transferLoop]
  | cons a rest ih =>
    by_cases h : a = p
    · subst h
      simp [transferLoop, ih]
    · simp [transferLoop, h, ih, Ne.symm h]

theorem removeFromQueueAux_eq (p : Int) (temp q : List Int) :
    removeFromQueueAux p temp q = temp ++ q.filter (fun x => x != p) := by
  induction q generalizing temp with
  | nil => simp [removeFromQueueAux]
  | cons a rest ih =>
    by_cases h : a = p
    · subst h
      simp [removeFromQueueAux, ih]
    · simp [removeFromQueueAux, h, ih]

theorem removeFromQueue_eq (q : List Int) (p : Int) :
    removeFromQueue q p = q.filter (fun x => x != p) := by
  simp [removeFromQueue, removeFromQueueAux_eq]

/-! ### Counting lemmas for the filtered queues -/

theorem count_filter_ne_self (l : List Int) (a : Int) :
    (l.filter (fun x => x != a)).count a = 0 := by
  rw [List.count_eq_zero]
  intro h
  have := (List.mem_filter.mp h).2
  simp at this

theorem count_filter_ne_other (l : List Int) (a b : Int) (h : b ≠ a) :
    (l.filter (fun x => x != a)).count b = l.count b := by
  induction l with
  | nil => simp
  | cons c rest ih =>
    by_cases hc : c = a
    · subst hc
      simp [List.count_cons, Ne.symm h, ih]
    · simp [List.filter_cons, hc, List.count_cons, ih]

theorem count_filter_eq_self (l : List Int) (a : Int) :
    (l.filter (fun x => x == a)).count a = l.count a := by
  induction l with
  | nil => simp
  | cons c rest ih =>
    by_cases hc : c = a
    · subst hc
      simp [List.count_cons, ih]
    · simp [List.filter_cons, hc, List.count_cons, ih]

theorem count_filter_eq_other (l : List Int) (a b : Int) (h : b ≠ a) :
    (l.filter (fun x => x == a)).count b = 0 := by
  rw [List.count_eq_zero]
  intro hb
  have := (List.mem_filter.mp hb).2
  simp at this
  exact h this

theorem filter_eq_of_count_one (l : List Int) (a : Int) (h : l.count a = 1) :
    l.filter (fun x => x == a) = [a] := by
  induction l with
  | nil => simp at h
  | cons c rest ih =>
    by_cases hc : c = a
    · subst hc
      rw [List.count_cons_self] at h
      have h0 : rest.count c = 0 := by omega
      have : rest.filter (fun x => x == c) = [] := by
        rw [List.filter_eq_nil_iff]
        intro b hb hbc
        rw [List.count_eq_zero] at h0
        simp at hbc
        exact h0 (hbc ▸ hb)
      simp [List.filter_cons, this]
    · rw [List.count_cons_of_ne (Ne.symm hc)] at h
      simp [List.filter_cons, hc, ih h]

theorem filter_ne_of_not_mem (l : List Int) (a : Int) (h : a ∉ l) :
    l.filter (fun x => x != a) = l := by
  rw [List.filter_eq_self]
  intro b hb
  simp
  exact fun hba => h (hba ▸ hb)

theorem filter_eq_of_not_mem (l : List Int) (a : Int) (h : a ∉ l) :
    l.filter (fun x => x == a) = [] := by
  rw [List.filter_eq_nil_iff]
  intro b hb hba
  simp at hba
  exact h (hba ▸ hb)

/-! ### Characterisation of the operations -/

theorem createProcess_pidCounter (m : ProcessManager) (nm : String) (pp : Int) :
    (createProcess m nm pp).1.pidCounter = m.pidCounter + 1 := rfl

theorem createProcess_readyQueue (m : ProcessManager) (nm : String) (pp : Int) :
    (createProcess m nm pp).1.readyQueue = m.readyQueue ++ [m.pidCounter] := rfl

theorem createProcess_ioQueue (m : ProcessManager) (nm : String) (pp : Int) :
    (createProcess m nm pp).1.ioQueue = m.ioQueue := rfl

theorem createProcess_root (m : ProcessManager) (nm : String) (pp : Int) :
    (createProcess m nm pp).1.root = newRoot m (resolvedParent m pp) m.pidCounter := rfl

theorem createProcess_msg (m : ProcessManager) (nm : String) (pp : Int) :
    (createProcess m nm pp).2 = "Created process: PID=" ++ toString m.pidCounter := rfl

theorem createProcess_map_new (m : ProcessManager) (nm : String) (pp : Int) :
    (createProcess m nm pp).1.processMap m.pidCounter =
      some ⟨m.pidCounter, nm, resolvedParent m pp, [], []⟩ := by
  simp [createProcess]

theorem createProcess_map_other (m : ProcessManager) (nm : String) (pp x : Int)
    (hx : x ≠ m.pidCounter) :
    (createProcess m nm pp).1.processMap x = parentChildAdd m pp m.pidCounter x := by
  simp [createProcess, hx]

theorem resolvedParent_of_some (m : ProcessManager) (pp : Int) (pproc : Process)
    (h1 : pp ≠ -1) (h2 : m.processMap pp = some pproc) :
    resolvedParent m pp = some pp := by
  simp [resolvedParent, h1, h2]

theorem resolvedParent_of_none (m : ProcessManager) (pp : Int)
    (h : m.processMap pp = none) : resolvedParent m pp = none := by
  simp [resolvedParent, h]

theorem resolvedParent_neg_one (m : ProcessManager) :
    resolvedParent m (-1) = none := by
  simp [resolvedParent]

theorem parentChildAdd_parent (m : ProcessManager) (pp n : Int) (pproc : Process)
    (h1 : pp ≠ -1) (h2 : m.processMap pp = some pproc) :
    parentChildAdd m pp n pp =
      some { pproc with children := pproc.children ++ [n] } := by
  simp [parentChildAdd, resolvedParent_of_some m pp pproc h1 h2, h2]

theorem parentChildAdd_of_unresolved (m : ProcessManager) (pp n : Int)
    (h : resolvedParent m pp = none) :
    parentChildAdd m pp n = m.processMap := by
  simp [parentChildAdd, h]

theorem resolvedParent_cases (m : ProcessManager) (pp : Int) :
    resolvedParent m pp = none ∨ resolvedParent m pp = some pp := by
  unfold resolvedParent
  split
  · exact Or.inr rfl
  · exact Or.inl rfl

theorem parentChildAdd_other (m : ProcessManager) (pp n x : Int) (hx : x ≠ pp) :
    parentChildAdd m pp n x = m.processMap x := by
  rcases resolvedParent_cases m pp with h | h <;>
    cases hmap : m.processMap pp <;>
      simp [parentChildAdd, h, hmap, mapUpdate, hx]

theorem parentChildAdd_isSome (m : ProcessManager) (pp n x : Int) :
    ((parentChildAdd m pp n x)).isSome = (m.processMap x).isSome := by
  rcases resolvedParent_cases m pp with h | h <;>
    cases hmap : m.processMap pp <;>
      by_cases hx : x = pp <;>
        simp [parentChildAdd, h, hmap, mapUpdate, hx]

theorem callFunction_found (m : ProcessManager) (pid : Int) (fn : String) (p : Process)
    (h : m.processMap pid = some p) :
    callFunction m pid fn =
      ({ m with processMap :=
          mapUpdate m.processMap pid { p with callStack := fn :: p.callStack } },
       "Process " ++ toString pid ++ " called function: " ++ fn) := by
  simp [callFunction, h]

theorem callFunction_not_found (m : ProcessManager) (pid : Int) (fn : String)
    (h : m.processMap pid = none) :
    callFunction m pid fn = (m, "Process not found.") := by
  simp [callFunction, h]

theorem requestIo_not_found (m : ProcessManager) (pid : Int)
    (h : m.processMap pid = none) :
    requestIo m pid = (m, "Process not found.") := by
  simp [requestIo, h]

theorem requestIo_state (m : ProcessManager) (pid : Int) (p : Process)
    (h : m.processMap pid = some p) :
    (requestIo m pid).1 =
      { m with readyQueue := m.readyQueue.filter (fun x => x != pid),
               ioQueue := m.ioQueue ++ m.readyQueue.filter (fun x => x == pid) } := by
  simp only [requestIo, h]
  split <;> simp [transferLoop_fst, transferLoop_dest]

theorem requestIo_not_ready (m : ProcessManager) (pid : Int) (p : Process)
    (h : m.processMap pid = some p) (h2 : pid ∉ m.readyQueue) :
    requestIo m pid = (m, "Process not in ready queue.") := by
  simp only [requestIo, h]
  rw [if_neg]
  · rw [transferLoop_fst, transferLoop_dest]
    rw [filter_ne_of_not_mem _ _ h2, filter_eq_of_not_mem _ _ h2]
    simp
  · rw [transferLoop_found]
    simp [h2]

theorem requestIo_msg_moved (m : ProcessManager) (pid : Int) (p : Process)
    (h : m.processMap pid = some p) (h2 : pid ∈ m.readyQueue) :
    (requestIo m pid).2 = "Process " ++ toString pid ++ " moved to I/O queue." := by
  simp only [requestIo, h]
  rw [if_pos]
  rw [transferLoop_found]
  simp [h2]

theorem completeIo_state (m : ProcessManager) (pid : Int) :
    (completeIo m pid).1 =
      { m with ioQueue := m.ioQueue.filter (fun x => x != pid),
               readyQueue := m.readyQueue ++ m.ioQueue.filter (fun x => x == pid) } := by
  simp only [completeIo]
  split <;> simp [transferLoop_fst, transferLoop_dest]

theorem completeIo_not_in_io (m : ProcessManager) (pid : Int)
    (h : pid ∉ m.ioQueue) :
    completeIo m pid = (m, "Process not found in I/O queue.") := by
  simp only [completeIo]
  rw [if_neg]
  · rw [transferLoop_fst, transferLoop_dest]
    rw [filter_ne_of_not_mem _ _ h, filter_eq_of_not_mem _ _ h]
    simp
  · rw [transferLoop_found]
    simp [h]

theorem completeIo_msg_found (m : ProcessManager) (pid : Int)
    (h : pid ∈ m.ioQueue) :
    (completeIo m pid).2 =
      "Process " ++ toString pid ++ " completed I/O and returned to ready queue." := by
  simp only [completeIo]
  rw [if_pos]
  rw [transferLoop_found]
  simp [h]

theorem terminateProcess_not_found (m : ProcessManager) (pid : Int)
    (h : m.processMap pid = none) :
    terminateProcess m pid = (m, "Process not found.") := by
  simp [terminateProcess, h]

theorem terminateProcess_found (m : ProcessManager) (pid : Int) (p : Process)
    (h : m.processMap pid = some p) :
    terminateProcess m pid =
      (⟨m.pidCounter, if m.root = some pid then none else m.root,
        mapErase (parentChildErase m p pid) pid,
        m.readyQueue.filter (fun x => x != pid),
        m.ioQueue.filter (fun x => x != pid)⟩,
       "Process " ++ toString pid ++ " terminated.") := by
  simp [terminateProcess, h, removeFromQueue_eq]

theorem parentChildErase_isSome (m : ProcessManager) (p : Process) (pid x : Int) :
    ((parentChildErase m p pid) x).isSome = (m.processMap x).isSome := by
  cases hpar : p.parent with
  | none => simp [parentChildErase, hpar]
  | some parentPid =>
      cases hmap : m.processMap parentPid with
      | none => simp [parentChildErase, hpar, hmap]
      | some pproc =>
          by_cases hx : x = parentPid
          · subst hx
            simp [parentChildErase, hpar, hmap, mapUpdate]
          · simp [parentChildErase, hpar, hmap, mapUpdate, hx]

/-! ### The queue-membership invariant -/

/-- The registry invariant: every live identifier occurs exactly once across
the two queues together and lies below the counter; an identifier absent from
the store occurs in neither queue. -/
def RegInv (m : ProcessManager) : Prop :=
  (∀ p, (m.processMap p).isSome = true →
      m.readyQueue.count p + m.ioQueue.count p = 1 ∧ p < m.pidCounter)
  ∧ ∀ p, m.processMap p = none →
      m.readyQueue.count p = 0 ∧ m.ioQueue.count p = 0

theorem inv_initState : RegInv initState := by
  constructor
  · intro p hp
    simp [initState] at hp
  · intro p _
    simp [initState]

/-- Moving the occurrences of `pid` from one queue to the tail of the other
preserves the total occurrence count of every identifier. -/
theorem count_move (src dest : List Int) (pid q : Int) :
    (src.filter (fun x => x != pid)).count q
      + (dest ++ src.filter (fun x => x == pid)).count q
      = src.count q + dest.count q := by
  by_cases hq : q = pid
  · subst hq
    rw [count_filter_ne_self, List.count_append, count_filter_eq_self]
    omega
  · rw [count_filter_ne_other _ _ _ hq, List.count_append, count_filter_eq_other _ _ _ hq]
    omega

theorem inv_create (m : ProcessManager) (nm : String) (pp : Int) (h : RegInv m) :
    RegInv (createProcess m nm pp).1 := by
  obtain ⟨h1, h2⟩ := h
  have hfresh : m.processMap m.pidCounter = none := by
    cases hc : m.processMap m.pidCounter with
    | none => rfl
    | some q =>
        have := (h1 m.pidCounter (by simp [hc])).2
        omega
  have hcount := h2 _ hfresh
  constructor
  · intro p hp
    rw [createProcess_readyQueue, createProcess_ioQueue, createProcess_pidCounter]
    by_cases hpid : p = m.pidCounter
    · subst hpid
      constructor
      · rw [List.count_append]
        simp [hcount.1, hcount.2]
      · omega
    · rw [createProcess_map_other m nm pp p hpid, parentChildAdd_isSome] at hp
      have := h1 p hp
      rw [List.count_append]
      have hone : List.count p [m.pidCounter] = 0 := by
        simp [List.count_singleton]
        omega
      omega
  · intro p hp
    rw [createProcess_readyQueue, createProcess_ioQueue]
    by_cases hpid : p = m.pidCounter
    · subst hpid
      rw [createProcess_map_new] at hp
      simp at hp
    · rw [createProcess_map_other m nm pp p hpid] at hp
      have hnone : m.processMap p = none := by
        have := parentChildAdd_isSome m pp m.pidCounter p
        rw [hp] at this
        cases hc : m.processMap p with
        | none => rfl
        | some q => rw [hc] at this; simp at this
      have := h2 p hnone
      rw [List.count_append]
      have hone : List.count p [m.pidCounter] = 0 := by
        simp [List.count_singleton]
        omega
      omega

theorem inv_call (m : ProcessManager) (pid : Int) (fn : String) (h : RegInv m) :
    RegInv (callFunction m pid fn).1 := by
  cases hc : m.processMap pid with
  | none =>
      rw [callFunction_not_found m pid fn hc]
      exact h
  | some p =>
      rw [callFunction_found m pid fn p hc]
      obtain ⟨h1, h2⟩ := h
      constructor
      · intro q hq
        dsimp at hq ⊢
        by_cases hqp : q = pid
        · subst hqp
          exact h1 q (by simp [hc])
        · rw [mapUpdate_other _ _ _ _ hqp] at hq
          exact h1 q hq
      · intro q hq
        dsimp at hq ⊢
        by_cases hqp : q = pid
        · subst hqp
          rw [mapUpdate_same] at hq
          cases hq
        · rw [mapUpdate_other _ _ _ _ hqp] at hq
          exact h2 q hq

theorem inv_reqIo (m : ProcessManager) (pid : Int) (h : RegInv m) :
    RegInv (requestIo m pid).1 := by
  cases hc : m.processMap pid with
  | none =>
      rw [requestIo_not_found m pid hc]
      exact h
  | some p =>
      rw [requestIo_state m pid p hc]
      obtain ⟨h1, h2⟩ := h
      constructor
      · intro q hq
        dsimp at hq ⊢
        have := h1 q hq
        have hm := count_move m.readyQueue m.ioQueue pid q
        omega
      · intro q hq
        dsimp at hq ⊢
        have := h2 q hq
        have hm := count_move m.readyQueue m.ioQueue pid q
        omega

theorem inv_compIo (m : ProcessManager) (pid : Int) (h : RegInv m) :
    RegInv (completeIo m pid).1 := by
  rw [completeIo_state m pid]
  obtain ⟨h1, h2⟩ := h
  constructor
  · intro q hq
    dsimp at hq ⊢
    have := h1 q hq
    have hm := count_move m.ioQueue m.readyQueue pid q
    omega
  · intro q hq
    dsimp at hq ⊢
    have := h2 q hq
    have hm := count_move m.ioQueue m.readyQueue pid q
    omega

theorem inv_term (m : ProcessManager) (pid : Int) (h : RegInv m) :
    RegInv (terminateProcess m pid).1 := by
  cases hc : m.processMap pid with
  | none =>
      rw [terminateProcess_not_found m pid hc]
      exact h
  | some p =>
      rw [terminateProcess_found m pid p hc]
      obtain ⟨h1, h2⟩ := h
      constructor
      · intro q hq
        dsimp at hq ⊢
        by_cases hqp : q = pid
        · subst hqp
          rw [mapErase_same] at hq
          cases hq
        · rw [mapErase_other _ _ _ hqp, parentChildErase_isSome] at hq
          have := h1 q hq
          rw [count_filter_ne_other _ _ _ hqp, count_filter_ne_other _ _ _ hqp]
          exact this
      · intro q hq
        dsimp at hq ⊢
        by_cases hqp : q = pid
        · subst hqp
          rw [count_filter_ne_self, count_filter_ne_self]
          exact ⟨rfl, rfl⟩
        · rw [mapErase_other _ _ _ hqp] at hq
          have hnone : m.processMap q = none := by
            have hiso := parentChildErase_isSome m p pid q
            rw [hq] at hiso
            cases hcq : m.processMap q with
            | none => rfl
            | some r => rw [hcq] at hiso; simp at hiso
          have := h2 q hnone
          rw [count_filter_ne_other _ _ _ hqp, count_filter_ne_other _ _ _ hqp]
          exact this

theorem inv_applyOp (m : ProcessManager) (op : Op) (h : RegInv m) :
    RegInv (applyOp m op) := by
  cases op with
  | create nm pp => exact inv_create m nm pp h
  | call pid fn => exact inv_call m pid fn h
  | reqIo pid => exact inv_reqIo m pid h
  | compIo pid => exact inv_compIo m pid h
  | term pid => exact inv_term m pid h

theorem inv_foldl (ops : List Op) (m : ProcessManager) (h : RegInv m) :
    RegInv (ops.foldl applyOp m) := by
  induction ops generalizing m with
  | nil => exact h
  | cons op rest ih => exact ih _ (inv_applyOp m op h)

theorem inv_run (ops : List Op) : RegInv (run ops) :=
  inv_foldl ops initState inv_initState

/-! ### The identifier counter -/

/-- Whether an operation is a `createProcess` invocation. -/
def Op.isCreate : Op → Bool
  | .create _ _ => true
  | _ => false

@[simp] theorem isCreate_create (nm : String) (pp : Int) :
    Op.isCreate (.create nm pp) = true := rfl

@[simp] theorem isCreate_call (pid : Int) (fn : String) :
    Op.isCreate (.call pid fn) = false := rfl

@[simp] theorem isCreate_reqIo (pid : Int) : Op.isCreate (.reqIo pid) = false := rfl

@[simp] theorem isCreate_compIo (pid : Int) : Op.isCreate (.compIo pid) = false := rfl

@[simp] theorem isCreate_term (pid : Int) : Op.isCreate (.term pid) = false := rfl

theorem callFunction_pidCounter (m : ProcessManager) (pid : Int) (fn : String) :
    (callFunction m pid fn).1.pidCounter = m.pidCounter := by
  cases hc : m.processMap pid with
  | none => rw [callFunction_not_found m pid fn hc]
  | some p => rw [callFunction_found m pid fn p hc]

theorem requestIo_pidCounter (m : ProcessManager) (pid : Int) :
    (requestIo m pid).1.pidCounter = m.pidCounter := by
  cases hc : m.processMap pid with
  | none => rw [requestIo_not_found m pid hc]
  | some p => rw [requestIo_state m pid p hc]

theorem completeIo_pidCounter (m : ProcessManager) (pid : Int) :
    (completeIo m pid).1.pidCounter = m.pidCounter := by
  rw [completeIo_state m pid]

theorem terminateProcess_pidCounter (m : ProcessManager) (pid : Int) :
    (terminateProcess m pid).1.pidCounter = m.pidCounter := by
  cases hc : m.processMap pid with
  | none => rw [terminateProcess_not_found m pid hc]
  | some p => rw [terminateProcess_found m pid p hc]

theorem intRange_succ (s : Int) (k : Nat) :
    intRange s (k + 1) = s :: intRange (s + 1) k := rfl

theorem assignedPids_eq (ops : List Op) (m : ProcessManager) :
    assignedPids m ops = intRange m.pidCounter (ops.countP Op.isCreate) := by
  induction ops generalizing m with
  | nil => simp [assignedPids, intRange]
  | cons op rest ih =>
    cases op with
    | create nm pp =>
        simp [assignedPids, ih, applyOp, createProcess_pidCounter, List.countP_cons,
          intRange_succ]
    | call pid fn =>
        simp [assignedPids, ih, applyOp, callFunction_pidCounter, List.countP_cons]
    | reqIo pid =>
        simp [assignedPids, ih, applyOp, requestIo_pidCounter, List.countP_cons]
    | compIo pid =>
        simp [assignedPids, ih, applyOp, completeIo_pidCounter, List.countP_cons]
    | term pid =>
        simp [assignedPids, ih, applyOp, terminateProcess_pidCounter, List.countP_cons]

theorem intRange_mem_ge (s : Int) (k : Nat) (x : Int) (hx : x ∈ intRange s k) :
    s ≤ x := by
  induction k generalizing s with
  | zero => simp [intRange] at hx
  | succ n ih =>
      rw [intRange_succ] at hx
      rcases List.mem_cons.mp hx with h | h
      · omega
      · have := ih (s + 1) h
        omega

theorem intRange_chain (s : Int) (k : Nat) :
    List.Chain' (· < ·) (intRange s k) := by
  induction k generalizing s with
  | zero => exact List.chain'_nil
  | succ n ih =>
      rw [intRange_succ, List.chain'_cons']
      constructor
      · intro b hb
        have hmem : b ∈ intRange (s + 1) n := List.mem_of_mem_head? hb
        have := intRange_mem_ge (s + 1) n b hmem
        omega
      · exact ih (s + 1)

theorem intRange_nodup (s : Int) (k : Nat) : (intRange s k).Nodup := by
  have h := intRange_chain s k
  rw [List.chain'_iff_pairwise] at h
  exact h.imp (fun hlt => ne_of_lt hlt)

theorem intRange_head (s : Int) (k : Nat) (h : 0 < k) :
    (intRange s k).head? = some s := by
  cases k with
  | zero => omega
  | succ n => rfl

/-! ### Demonstration scenarios -/

/-- Root and one child, both in the ready queue. -/
def demoTwo : List Op := [.create "A" (-1), .create "B" 1]

/-- Root, one child, child moved to the I/O queue. -/
def demoMoved : List Op := [.create "A" (-1), .create "B" 1, .reqIo 2]

/-- The root is terminated while its child is still live: the child keeps a
parent link to the erased identifier 1 and the root designation is gone. -/
def demoOrphan : List Op := [.create "A" (-1), .create "B" 1, .term 1]

/-! ### The claims -/

/-- Claim C1: in every registry state reachable by a sequence of
createProcess, callFunction, requestIO, completeIO and terminateProcess
operations, a process in the canonical store (live) is a member of exactly
one of the ready queue and the I/O queue — never both, never neither — and
an identifier no longer in the store (a terminated process) is a member of
neither queue. -/
theorem claim_C1_live_in_exactly_one_queue (ops : List Op) (p : Int) :
    (((run ops).processMap p).isSome = true →
      (p ∈ (run ops).readyQueue ∧ p ∉ (run ops).ioQueue)
      ∨ (p ∈ (run ops).ioQueue ∧ p ∉ (run ops).readyQueue))
    ∧ ((run ops).processMap p = none →
      p ∉ (run ops).readyQueue ∧ p ∉ (run ops).ioQueue) := by
  obtain ⟨h1, h2⟩ := inv_run ops
  constructor
  · intro hp
    have hc := (h1 p hp).1
    by_cases hr : p ∈ (run ops).readyQueue
    · left
      refine ⟨hr, fun hio => ?_⟩
      have hcr : 0 < (run ops).readyQueue.count p := List.count_pos_iff.mpr hr
      have hci : 0 < (run ops).ioQueue.count p := List.count_pos_iff.mpr hio
      omega
    · right
      have hcr : (run ops).readyQueue.count p = 0 := by
        rw [List.count_eq_zero]
        exact hr
      refine ⟨List.count_pos_iff.mp (by omega), hr⟩
  · intro hp
    have hz := h2 p hp
    constructor
    · rw [← List.count_eq_zero]
      exact hz.1
    · rw [← List.count_eq_zero]
      exact hz.2

theorem claim_C1_witness :
    (((run demoMoved).processMap 2).isSome = true)
    ∧ ((2 ∈ (run demoMoved).readyQueue ∧ 2 ∉ (run demoMoved).ioQueue)
       ∨ (2 ∈ (run demoMoved).ioQueue ∧ 2 ∉ (run demoMoved).readyQueue)) :=
  ⟨by decide, (claim_C1_live_in_exactly_one_queue demoMoved 2).1 (by decide)⟩

/-- Claim C2 (evidence against): after creating a parent and a child and
terminating the parent, the child is live while its stored parent link names
identifier 1, which is no longer in the store.  Invoking `terminateProcess 2`
in this state reaches the parent child-list erase with `p->parent` pointing
at the `Process` object freed when identifier 1 was erased from
`processMap`; the C++ source dereferences that dangling pointer. -/
theorem claim_C2_terminate_orphan_dangling : danglingParent (run demoOrphan) 2 := by
  refine ⟨⟨2, "B", some 1, [], []⟩, by decide, 1, rfl, by decide⟩

/-- Claim C7: over every operation sequence from the fresh registry, the
identifiers assigned by createProcess are exactly 1, 2, 3, …: strictly
increasing, starting at 1, and never reused — even after terminations. -/
theorem claim_C7_pids_strictly_increasing (ops : List Op) :
    assignedPids initState ops = intRange 1 (ops.countP Op.isCreate)
    ∧ List.Chain' (· < ·) (assignedPids initState ops)
    ∧ (assignedPids initState ops).Nodup
    ∧ (∀ x ∈ assignedPids initState ops, 1 ≤ x)
    ∧ (0 < ops.countP Op.isCreate →
        (assignedPids initState ops).head? = some 1) := by
  have he : assignedPids initState ops = intRange 1 (ops.countP Op.isCreate) :=
    assignedPids_eq ops initState
  refine ⟨he, ?_, ?_, ?_, ?_⟩
  · rw [he]
    exact intRange_chain 1 _
  · rw [he]
    exact intRange_nodup 1 _
  · rw [he]
    exact fun x hx => intRange_mem_ge 1 _ x hx
  · intro hk
    rw [he]
    exact intRange_head 1 _ hk

theorem claim_C7_witness :
    (0 < (demoOrphan.countP Op.isCreate))
    ∧ (assignedPids initState demoOrphan).head? = some 1 :=
  ⟨by decide, (claim_C7_pids_strictly_increasing demoOrphan).2.2.2.2 (by decide)⟩

/-- Claim C9: showState is read-only — the registry state after showState,
including both queues with their members and order, is exactly the state
before it (the C++ `displayQueue` receives each queue by value, so draining
the copy leaves the member queue untouched). -/
theorem claim_C9_showState_readonly (m : ProcessManager) :
    (showState m).2.readyQueue = m.readyQueue
    ∧ (showState m).2.ioQueue = m.ioQueue
    ∧ (showState m).2 = m :=
  ⟨rfl, rfl, rfl⟩

/-- Claim C10: a successful callFunction only pushes the function name on
the target process's call stack; both queues, the root, the counter and
every other store entry are unchanged, and the target keeps its identifier,
name, parent and children. -/
theorem claim_C10_callFunction_frame (m : ProcessManager) (pid : Int)
    (fn : String) (p : Process) (h : m.processMap pid = some p) :
    (callFunction m pid fn).1.processMap pid =
        some { p with callStack := fn :: p.callStack }
    ∧ (∀ q, q ≠ pid → (callFunction m pid fn).1.processMap q = m.processMap q)
    ∧ (callFunction m pid fn).1.readyQueue = m.readyQueue
    ∧ (callFunction m pid fn).1.ioQueue = m.ioQueue
    ∧ (callFunction m pid fn).1.root = m.root
    ∧ (callFunction m pid fn).1.pidCounter = m.pidCounter
    ∧ (callFunction m pid fn).2 =
        "Process " ++ toString pid ++ " called function: " ++ fn := by
  rw [callFunction_found m pid fn p h]
  exact ⟨mapUpdate_same _ _ _, fun q hq => mapUpdate_other _ _ _ _ hq,
    rfl, rfl, rfl, rfl, rfl⟩

theorem claim_C10_witness :
    ((run demoTwo).processMap 2 = some ⟨2, "B", some 1, [], []⟩)
    ∧ (callFunction (run demoTwo) 2 "f").1.processMap 2 =
        some { (⟨2, "B", some 1, [], []⟩ : Process) with callStack := "f" :: [] } :=
  ⟨by decide,
   (claim_C10_callFunction_frame (run demoTwo) 2 "f" ⟨2, "B", some 1, [], []⟩
     (by decide)).1⟩

/-- Claim C5: requestIO behaves in exactly one of three ways: a process in
the ready queue is removed from it (order of the others preserved) and
appended to the tail of the I/O queue with a success message; a live process
not in the ready queue gives "Process not in ready queue." with no state
change; an unknown identifier gives "Process not found." with no state
change. -/
theorem claim_C5_requestIo_cases (m : ProcessManager) (pid : Int) :
    (m.processMap pid = none → requestIo m pid = (m, "Process not found."))
    ∧ (∀ p, m.processMap pid = some p → pid ∉ m.readyQueue →
        requestIo m pid = (m, "Process not in ready queue."))
    ∧ (∀ p, m.processMap pid = some p → m.readyQueue.count pid = 1 →
        requestIo m pid =
          ({ m with readyQueue := m.readyQueue.filter (fun x => x != pid),
                    ioQueue := m.ioQueue ++ [pid] },
           "Process " ++ toString pid ++ " moved to I/O queue.")) := by
  refine ⟨fun h => requestIo_not_found m pid h,
    fun p h h2 => requestIo_not_ready m pid p h h2,
    fun p h hc => ?_⟩
  have hmem : pid ∈ m.readyQueue := List.count_pos_iff.mp (by omega)
  rw [Prod.ext_iff]
  constructor
  · rw [requestIo_state m pid p h, filter_eq_of_count_one _ _ hc]
  · exact requestIo_msg_moved m pid p h hmem

theorem claim_C5_witness :
    ((run demoTwo).processMap 2 = some ⟨2, "B", some 1, [], []⟩)
    ∧ ((run demoTwo).readyQueue.count 2 = 1)
    ∧ requestIo (run demoTwo) 2 =
        ({ (run demoTwo) with
             readyQueue := (run demoTwo).readyQueue.filter (fun x => x != 2),
             ioQueue := (run demoTwo).ioQueue ++ [2] },
         "Process " ++ toString (2 : Int) ++ " moved to I/O queue.") :=
  ⟨by decide, by decide,
   (claim_C5_requestIo_cases (run demoTwo) 2).2.2 ⟨2, "B", some 1, [], []⟩
     (by decide) (by decide)⟩

/-- Claim C6: completeIO removes a process present in the I/O queue
(preserving the order of the rest) and appends it to the tail of the ready
queue with a success message; any identifier not in the I/O queue — unknown
or simply not waiting — yields the single conflated message "Process not
found in I/O queue." with no state change.  Consequently requestIO followed
immediately by completeIO puts the process at the tail of the ready queue,
not back in its original position. -/
theorem claim_C6_completeIo_cases (m : ProcessManager) (pid : Int) :
    (pid ∉ m.ioQueue →
        completeIo m pid = (m, "Process not found in I/O queue."))
    ∧ (m.ioQueue.count pid = 1 →
        completeIo m pid =
          ({ m with readyQueue := m.readyQueue ++ [pid],
                    ioQueue := m.ioQueue.filter (fun x => x != pid) },
           "Process " ++ toString pid ++ " completed I/O and returned to ready queue."))
    ∧ (∀ p, m.processMap pid = some p → m.readyQueue.count pid = 1 →
        pid ∉ m.ioQueue →
        (completeIo (requestIo m pid).1 pid).1 =
          { m with readyQueue :=
              m.readyQueue.filter (fun x => x != pid) ++ [pid] }) := by
  refine ⟨fun h => completeIo_not_in_io m pid h, fun hc => ?_, fun p h hrc hio => ?_⟩
  · have hmem : pid ∈ m.ioQueue := List.count_pos_iff.mp (by omega)
    rw [Prod.ext_iff]
    constructor
    · rw [completeIo_state m pid, filter_eq_of_count_one _ _ hc]
    · exact completeIo_msg_found m pid hmem
  · rw [completeIo_state (requestIo m pid).1 pid, requestIo_state m pid p h]
    dsimp only
    rw [filter_eq_of_count_one _ _ hrc]
    rw [List.filter_append, List.filter_append]
    rw [filter_ne_of_not_mem _ _ hio, filter_eq_of_not_mem _ _ hio]
    simp

theorem claim_C6_witness :
    (((run demoTwo).processMap 2 = some ⟨2, "B", some 1, [], []⟩))
    ∧ ((run demoTwo).readyQueue.count 2 = 1)
    ∧ (2 ∉ (run demoTwo).ioQueue)
    ∧ (completeIo (requestIo (run demoTwo) 2).1 2).1 =
        { (run demoTwo) with readyQueue :=
            (run demoTwo).readyQueue.filter (fun x => x != 2) ++ [2] } :=
  ⟨by decide, by decide, by decide,
   (claim_C6_completeIo_cases (run demoTwo) 2).2.2 ⟨2, "B", some 1, [], []⟩
     (by decide) (by decide) (by decide)⟩

/-- Claim C8: in every state with no designated root, the tree section of
showState is the "(No processes created yet)" line — even when live
processes remain in the store and the queues, since `m` here is
arbitrary. -/
theorem claim_C8_no_root_message (m : ProcessManager) (h : m.root = none) :
    showStateTree m = ["(No processes created yet)"]
    ∧ (showState m).1 =
        ["--- Ready Queue ---"] ++ displayQueue m.processMap m.readyQueue
        ++ ["--- I/O Queue ---"] ++ displayQueue m.processMap m.ioQueue
        ++ ["--- Process Tree ---", "(No processes created yet)",
            "--------------------"] := by
  have ht : showStateTree m = ["(No processes created yet)"] := by
    simp [showStateTree, h]
  refine ⟨ht, ?_⟩
  simp [showState, ht]

theorem claim_C8_witness :
    ((run demoOrphan).root = none)
    ∧ (((run demoOrphan).processMap 2).isSome = true)
    ∧ ((run demoOrphan).readyQueue = [2])
    ∧ showStateTree (run demoOrphan) = ["(No processes created yet)"] :=
  ⟨by decide, by decide, by decide,
   (claim_C8_no_root_message (run demoOrphan) (by decide)).1⟩

theorem resolvedParent_none_iff (m : ProcessManager) (pp : Int) :
    resolvedParent m pp = none ↔ (pp = -1 ∨ m.processMap pp = none) := by
  unfold resolvedParent
  by_cases h1 : pp = -1
  · simp [h1]
  · cases hc : m.processMap pp <;> simp [h1, hc]

/-- Claim C3: terminating a live process removes it from exactly the one
queue holding it, erases it from its parent's child list when the parent is
live, clears the root designation exactly when it was the root (no child is
promoted to root or re-parented: every other store entry is untouched),
deletes it from the store, and a second terminateProcess on the same
identifier reports not-found and changes nothing. -/
theorem claim_C3_terminateProcess (m : ProcessManager) (pid : Int) (p : Process)
    (h : m.processMap pid = some p)
    (hq : m.readyQueue.count pid + m.ioQueue.count pid = 1) :
    ((terminateProcess m pid).1.processMap pid = none)
    ∧ (pid ∈ m.readyQueue →
        (terminateProcess m pid).1.readyQueue =
            m.readyQueue.filter (fun x => x != pid)
        ∧ (terminateProcess m pid).1.ioQueue = m.ioQueue)
    ∧ (pid ∈ m.ioQueue →
        (terminateProcess m pid).1.ioQueue =
            m.ioQueue.filter (fun x => x != pid)
        ∧ (terminateProcess m pid).1.readyQueue = m.readyQueue)
    ∧ (∀ q pq, p.parent = some q → q ≠ pid → m.processMap q = some pq →
        (terminateProcess m pid).1.processMap q =
          some { pq with children := pq.children.filter (fun x => x != pid) })
    ∧ ((terminateProcess m pid).1.root =
        if m.root = some pid then none else m.root)
    ∧ (∀ q, q ≠ pid → (∀ pp, p.parent = some pp → q ≠ pp) →
        (terminateProcess m pid).1.processMap q = m.processMap q)
    ∧ terminateProcess (terminateProcess m pid).1 pid =
        ((terminateProcess m pid).1, "Process not found.") := by
  rw [terminateProcess_found m pid p h]
  dsimp only
  refine ⟨mapErase_same _ _, ?_, ?_, ?_, rfl, ?_, ?_⟩
  · intro hr
    have hcr : 0 < m.readyQueue.count pid := List.count_pos_iff.mpr hr
    have hio : pid ∉ m.ioQueue := List.count_eq_zero.mp (by omega)
    exact ⟨rfl, filter_ne_of_not_mem _ _ hio⟩
  · intro hio
    have hci : 0 < m.ioQueue.count pid := List.count_pos_iff.mpr hio
    have hr : pid ∉ m.readyQueue := List.count_eq_zero.mp (by omega)
    exact ⟨rfl, filter_ne_of_not_mem _ _ hr⟩
  · intro q pq hpar hqpid hpq
    rw [mapErase_other _ _ _ hqpid]
    simp [parentChildErase, hpar, hpq, mapUpdate, eraseRemove]
  · intro q hqpid hqpar
    rw [mapErase_other _ _ _ hqpid]
    cases hpar : p.parent with
    | none => simp [parentChildErase, hpar]
    | some pp =>
        have hqpp : q ≠ pp := hqpar pp hpar
        cases hpp : m.processMap pp with
        | none => simp [parentChildErase, hpar, hpp]
        | some pproc => simp [parentChildErase, hpar, hpp, mapUpdate, hqpp]
  · exact terminateProcess_not_found _ pid (mapErase_same _ _)

theorem claim_C3_witness :
    ((run demoTwo).processMap 2 = some ⟨2, "B", some 1, [], []⟩)
    ∧ ((run demoTwo).readyQueue.count 2 + (run demoTwo).ioQueue.count 2 = 1)
    ∧ ((terminateProcess (run demoTwo) 2).1.processMap 2 = none)
    ∧ terminateProcess (terminateProcess (run demoTwo) 2).1 2 =
        ((terminateProcess (run demoTwo) 2).1, "Process not found.") := by
  have hw := claim_C3_terminateProcess (run demoTwo) 2 ⟨2, "B", some 1, [], []⟩
    (by decide) (by decide)
  exact ⟨by decide, by decide, hw.1, hw.2.2.2.2.2.2⟩

/-- Claim C4: createProcess always succeeds: it assigns the fresh identifier
pidCounter and increments the counter, appends the new process to the tail
of the ready queue, leaves the I/O queue untouched, stores the new process
with no parent when the supplied identifier is -1 or unknown (silently) and
as a child of the resolved parent otherwise, becomes root exactly when no
root exists and no parent was resolved, and reports the new identifier. -/
theorem claim_C4_createProcess (m : ProcessManager) (nm : String) (ppid : Int)
    (hfresh : m.processMap m.pidCounter = none)
    (hroot : m.root ≠ some m.pidCounter) :
    ((createProcess m nm ppid).2 = "Created process: PID=" ++ toString m.pidCounter)
    ∧ ((createProcess m nm ppid).1.pidCounter = m.pidCounter + 1)
    ∧ ((createProcess m nm ppid).1.readyQueue = m.readyQueue ++ [m.pidCounter])
    ∧ ((createProcess m nm ppid).1.ioQueue = m.ioQueue)
    ∧ ((ppid = -1 ∨ m.processMap ppid = none) →
        (createProcess m nm ppid).1.processMap m.pidCounter =
          some ⟨m.pidCounter, nm, none, [], []⟩)
    ∧ (∀ pp, ppid ≠ -1 → m.processMap ppid = some pp →
        (createProcess m nm ppid).1.processMap m.pidCounter =
          some ⟨m.pidCounter, nm, some ppid, [], []⟩
        ∧ (createProcess m nm ppid).1.processMap ppid =
            some { pp with children := pp.children ++ [m.pidCounter] })
    ∧ ((createProcess m nm ppid).1.root = some m.pidCounter
        ↔ (m.root = none ∧ (ppid = -1 ∨ m.processMap ppid = none))) := by
  refine ⟨rfl, rfl, rfl, rfl, ?_, ?_, ?_⟩
  · intro hp
    rw [createProcess_map_new, (resolvedParent_none_iff m ppid).mpr hp]
  · intro pp h1 h2
    have hne : ppid ≠ m.pidCounter := by
      intro he
      rw [he, hfresh] at h2
      cases h2
    constructor
    · rw [createProcess_map_new, resolvedParent_of_some m ppid pp h1 h2]
    · rw [createProcess_map_other m nm ppid ppid hne,
        parentChildAdd_parent m ppid _ pp h1 h2]
  · rw [createProcess_root]
    rcases resolvedParent_cases m ppid with hres | hres
    · rw [hres]
      cases hrm : m.root with
      | none =>
          simp only [newRoot, hrm]
          simp [(resolvedParent_none_iff m ppid).mp hres]
      | some r =>
          have hr : r ≠ m.pidCounter := by
            intro he
            exact hroot (by rw [hrm, he])
          simp [newRoot, hrm, hr]
    · rw [hres]
      have hnot : ¬(ppid = -1 ∨ m.processMap ppid = none) := by
        intro hcontra
        rw [(resolvedParent_none_iff m ppid).mpr hcontra] at hres
        cases hres
      simp [newRoot, hroot, hnot]

theorem claim_C4_witness :
    ((run demoTwo).processMap (run demoTwo).pidCounter = none)
    ∧ ((run demoTwo).root ≠ some (run demoTwo).pidCounter)
    ∧ ((createProcess (run demoTwo) "C" 1).2 =
        "Created process: PID=" ++ toString (run demoTwo).pidCounter)
    ∧ ((createProcess (run demoTwo) "C" 1).1.readyQueue =
        (run demoTwo).readyQueue ++ [(run demoTwo).pidCounter]) := by
  have hw := claim_C4_createProcess (run demoTwo) "C" 1 (by decide) (by decide)
  exact ⟨by decide, by decide, hw.1, hw.2.2.1⟩
